import Mathlib

/-!
Shallow embedding of the memory subsystem (AsyncMemoryManager and
AdvancedMemoryManager from src/记忆) together with theorems settling the
specification claims.  Machine counters are modelled as `Nat`, the float
latency accumulator as `Nat` (integral millisecond counts are added to it)
with the derived average as `Rat`, and the concurrent queue as an explicit
`List` with the front at the head.
-/

namespace Sqdlh

/-- `MemoryType` from memory_manager.h: persistence lifetime class. -/
inductive MemoryType where
  | Short
  | Mid
  | Long
deriving DecidableEq, Repr

/-- `MemoryCategory`: enumeration order {Work, Family, Friendship, Happiness, Other}. -/
inductive MemoryCategory where
  | Work
  | Family
  | Friendship
  | Happiness
  | Other
deriving DecidableEq, Repr

/-- `MemoryItem{content, type, category, timestamp}`; the timestamp string of
epoch seconds is modelled as the `Nat` it encodes. -/
structure MemoryItem where
  content : String
  type : MemoryType
  category : MemoryCategory
  timestamp : Nat
deriving DecidableEq, Repr

/-- Byte-wise `::tolower` of the C locale: lowers ASCII 'A'..'Z', leaves every
other character (in particular all multi-byte Chinese text) unchanged. -/
def asciiToLower (c : Char) : Char :=
  if 'A' ≤ c ∧ c ≤ 'Z' then Char.ofNat (c.toNat + 32) else c

/-- `needle` occurs at the start of `hay` (character-wise equality). -/
def startsWith : List Char → List Char → Bool
  | [], _ => true
  | _ :: _, [] => false
  | a :: as, b :: bs => a == b && startsWith as bs

/-- `std::string::find(needle) != npos`: `needle` occurs as a contiguous
substring of `hay`. -/
def containsSub (hay needle : List Char) : Bool :=
  match hay with
  | [] => needle.isEmpty
  | _ :: t => startsWith needle hay || containsSub t needle

/-- Work keyword test of `classifyMemory` (line 330): "工作" or "项目". -/
def matchesWork (l : List Char) : Bool :=
  containsSub l "工作".toList || containsSub l "项目".toList

/-- Family keyword test (line 335): "家庭" or "父母". -/
def matchesFamily (l : List Char) : Bool :=
  containsSub l "家庭".toList || containsSub l "父母".toList

/-- Friendship keyword test (line 340): "朋友" or "聚会". -/
def matchesFriendship (l : List Char) : Bool :=
  containsSub l "朋友".toList || containsSub l "聚会".toList

/-- Happiness keyword test (line 345): "开心" or "高兴". -/
def matchesHappiness (l : List Char) : Bool :=
  containsSub l "开心".toList || containsSub l "高兴".toList

/-- `AdvancedMemoryManager::classifyMemory`: lower-case the content, then test
the categories in the fixed order Work, Family, Friendship, Happiness; the
first category with a keyword match wins, otherwise Other. -/
def classifyMemory (content : String) : MemoryCategory :=
  let lower := content.toList.map asciiToLower
  if matchesWork lower then .Work
  else if matchesFamily lower then .Family
  else if matchesFriendship lower then .Friendship
  else if matchesHappiness lower then .Happiness
  else .Other

/-! ## Write-back engine (AsyncMemoryManager) -/

/-- `BATCH_SIZE = 100` from async_memory_manager.h. -/
def BATCH_SIZE : Nat := 100

/-- State of an `AsyncMemoryManager`.  `base` is the in-memory collection of
the inherited `MemoryManager` store; `pendingWrites` is the pending-write
queue with its front at the head; `shortFile`, `midFile`, `longFile` are the
three append-only persistence destinations; `baseSaveCount` counts the calls
into the base store's own `save()`. -/
structure AsyncState where
  base : List MemoryItem
  pendingWrites : List MemoryItem
  shortFile : List MemoryItem
  midFile : List MemoryItem
  longFile : List MemoryItem
  baseSaveCount : Nat
deriving DecidableEq, Repr

/-- A freshly constructed `AsyncMemoryManager`: everything empty. -/
def initAsync : AsyncState :=
  { base := [], pendingWrites := [], shortFile := [], midFile := [],
    longFile := [], baseSaveCount := 0 }

/-- `AsyncMemoryManager::saveBatch`: appends each item of the batch, in batch
order, to the destination file selected by its `type`. -/
def saveBatch (s : AsyncState) (batch : List MemoryItem) : AsyncState :=
  { s with
    shortFile := s.shortFile ++ batch.filter (fun m => m.type = .Short),
    midFile := s.midFile ++ batch.filter (fun m => m.type = .Mid),
    longFile := s.longFile ++ batch.filter (fun m => m.type = .Long) }

/-- The drain loop shared by `flushPendingWrites` and `getPendingBatch`:
pop front items while the batch holds fewer than `BATCH_SIZE`. -/
def getPendingBatch (s : AsyncState) : List MemoryItem :=
  s.pendingWrites.take BATCH_SIZE

/-- `AsyncMemoryManager::flushPendingWrites`: removes at most one batch of up
to `BATCH_SIZE` items from the front of the pending queue and persists it;
items beyond the first `BATCH_SIZE` stay queued. -/
def flushPendingWrites (s : AsyncState) : AsyncState :=
  let batch := getPendingBatch s
  let s := { s with pendingWrites := s.pendingWrites.drop BATCH_SIZE }
  if batch.isEmpty then s else saveBatch s batch

/-- Modelled from the spec: `MemoryManager::addMemory` (the base store's
synchronous add, memory_manager.h is not under src/) appends the record to
the in-memory collection. -/
def baseAddMemory (s : AsyncState) (item : MemoryItem) : AsyncState :=
  { s with base := s.base ++ [item] }

/-- Modelled from the spec: `MemoryManager::save` (the base store's own
flush-to-disk, not under src/); only the fact that it was invoked matters
here, counted by `baseSaveCount`. -/
def baseSave (s : AsyncState) : AsyncState :=
  { s with baseSaveCount := s.baseSaveCount + 1 }

/-- `AsyncMemoryManager::addMemory`: delegate to the base store's add, then
enqueue a copy for asynchronous persistence.  Reaching the `BATCH_SIZE`
threshold only calls `asyncSave()`, which merely notifies the worker thread
(no queue state change). -/
def addMemoryAsync (s : AsyncState) (content : String) (ty : MemoryType)
    (category : MemoryCategory) (now : Nat) : AsyncState :=
  let item : MemoryItem := ⟨content, ty, category, now⟩
  let s := baseAddMemory s item
  { s with pendingWrites := s.pendingWrites ++ [item] }

/-- `AsyncMemoryManager::save`: one `flushPendingWrites` pass, then the base
store's own save. -/
def saveAsync (s : AsyncState) : AsyncState :=
  baseSave (flushPendingWrites s)

/-- `AsyncMemoryManager::~AsyncMemoryManager` in the schedule where the worker
is parked in its wait when the destructor runs: `shouldStop` is set, the
woken worker sees it and breaks out before draining (`saveWorker` line 84),
the thread is joined, and one final `flushPendingWrites` runs. -/
def destructAsync (s : AsyncState) : AsyncState :=
  flushPendingWrites s

/-- `saveWorker`'s drain on a wake without stop: take a batch, persist it. -/
def workerDrain (s : AsyncState) : AsyncState :=
  let batch := getPendingBatch s
  let s := { s with pendingWrites := s.pendingWrites.drop BATCH_SIZE }
  if batch.isEmpty then s else saveBatch s batch

/-- `n` successive `addMemory` calls of distinct Short-type items
("m" at timestamps 0, 1, …, n-1) starting from a fresh manager. -/
def addSeq : Nat → AsyncState
  | 0 => initAsync
  | n + 1 => addMemoryAsync (addSeq n) "m" .Short .Other n

/-- Everything persisted to a type destination so far. -/
def persistedAll (s : AsyncState) : List MemoryItem :=
  s.shortFile ++ s.midFile ++ s.longFile

theorem addSeq_pending_length (n : Nat) : (addSeq n).pendingWrites.length = n := by
  induction n with
  | zero => rfl
  | succ k ih =>
    simp [addSeq, addMemoryAsync, baseAddMemory, ih]

/-! ## Orchestrator (AdvancedMemoryManager) -/

/-- Event types of event_system.h used by the orchestrator. -/
inductive EventType where
  | MEMORY_ADDED
  | MEMORY_SEARCHED
  | WEIGHT_UPDATED
  | SYSTEM_STARTED
  | SYSTEM_STOPPED
deriving DecidableEq, Repr

/-- State of an `AdvancedMemoryManager`.  `running` is the `running_` atomic;
`asyncMgr` the owned write-back engine; `accesses`, `weightUpdates` and
`cleanupCount` record the calls forwarded to the weight collaborator
(modelled from the spec: the weight collaborator is external, only the calls
made to it are observable); `cache` models the query cache; `events` the
events published on the bus, in publication order; the four counters are the
atomic statistics counters (the float `totalSearchTime_` accumulates the
integral millisecond counts, modelled as `Nat`). -/
structure OrchState where
  running : Bool
  asyncMgr : AsyncState
  accesses : List (String × Nat)
  weightUpdates : List (String × Rat)
  cleanupCount : Nat
  cache : List (String × MemoryItem)
  events : List EventType
  totalSearches : Nat
  totalSearchTime : Nat
  cacheHits : Nat
  cacheMisses : Nat

/-- A freshly constructed, not yet started `AdvancedMemoryManager`. -/
def initOrch : OrchState :=
  { running := false, asyncMgr := initAsync, accesses := [], weightUpdates := [],
    cleanupCount := 0, cache := [], events := [], totalSearches := 0,
    totalSearchTime := 0, cacheHits := 0, cacheMisses := 0 }

/-- Modelled from the spec: `LRUCache::get` (lru_cache.h is not under src/),
exact-key lookup in the query cache. -/
def cacheGet : List (String × MemoryItem) → String → Option MemoryItem
  | [], _ => none
  | (k, v) :: t, q => if k = q then some v else cacheGet t q

/-- Modelled from the spec: `LRUCache::put`; the eviction policy is opaque to
this core, so insertion is modelled as shadowing the key at the front. -/
def cachePut (c : List (String × MemoryItem)) (k : String) (v : MemoryItem) :
    List (String × MemoryItem) :=
  (k, v) :: c

/-- Modelled from the spec: `MemoryManager::getRelatedMemories(query, n)`,
the base store's cheaper keyword heuristic bounded to `n` results. -/
def getRelatedMemories (a : AsyncState) (query : String) (n : Nat) :
    List MemoryItem :=
  (a.base.filter (fun m => containsSub m.content.toList query.toList)).take n

/-- Modelled from the spec: `MemoryManager::getRecentMemories()`, the base
store's recency listing (most recent first), taking no count argument. -/
def baseGetRecentMemories (a : AsyncState) : List MemoryItem :=
  a.base.reverse

/-- Modelled from the spec: `MemoryManager::getTopMemories(n)`, the
importance-ranked listing bounded to `n`; the ranking itself belongs to the
opaque weight collaborator and is modelled as the stored order. -/
def baseGetTopMemories (a : AsyncState) (n : Nat) : List MemoryItem :=
  a.base.take n

/-- `AdvancedMemoryManager::addMemory`: refuse when not running; otherwise
auto-classify an `Other` category, delegate to the async manager, record a
weight access, publish `MEMORY_ADDED`. -/
def addMemory (s : OrchState) (content : String) (ty : MemoryType)
    (category : MemoryCategory) (now : Nat) : OrchState :=
  if s.running then
    let cat := if category = .Other then classifyMemory content else category
    { s with
      asyncMgr := addMemoryAsync s.asyncMgr content ty cat now,
      accesses := s.accesses ++ [(content, now)],
      events := s.events ++ [.MEMORY_ADDED] }
  else s

/-- `AdvancedMemoryManager::searchMemories`: cache hit returns the single
cached item immediately (only the hit counter moves); on a miss the fallback
related-memories lookup runs (`semanticSearch_` is never constructed in this
build, initializeComponents line 27), the latency `lat` and search counter
are accumulated, a non-empty result caches its first item, and
`MEMORY_SEARCHED` is published.  `lat` is the measured wall-clock latency in
milliseconds, an oracle input to the model. -/
def searchMemories (s : OrchState) (query : String) (maxResults : Nat)
    (lat : Nat) : List MemoryItem × OrchState :=
  match cacheGet s.cache query with
  | some item => ([item], { s with cacheHits := s.cacheHits + 1 })
  | none =>
    let s1 := { s with cacheMisses := s.cacheMisses + 1 }
    let results := getRelatedMemories s1.asyncMgr query maxResults
    let s2 := { s1 with
      totalSearchTime := s1.totalSearchTime + lat,
      totalSearches := s1.totalSearches + 1 }
    let s3 := match results with
      | [] => s2
      | r :: _ => { s2 with cache := cachePut s2.cache query r }
    (results, { s3 with events := s3.events ++ [.MEMORY_SEARCHED] })

/-- `AdvancedMemoryManager::getRecentMemories(count)`: delegates to the base
recency listing; the `count` parameter is not forwarded. -/
def getRecentMemories (s : OrchState) (count : Nat) : List MemoryItem :=
  baseGetRecentMemories s.asyncMgr

/-- `AdvancedMemoryManager::getTopMemories(count)`. -/
def getTopMemories (s : OrchState) (count : Nat) : List MemoryItem :=
  baseGetTopMemories s.asyncMgr count

/-- `AdvancedMemoryManager::updateMemoryWeight`: forwards to the weight
collaborator and publishes `WEIGHT_UPDATED`; performs no `running_` check. -/
def updateMemoryWeight (s : OrchState) (content : String) (weight : Rat) :
    OrchState :=
  { s with
    weightUpdates := s.weightUpdates ++ [(content, weight)],
    events := s.events ++ [.WEIGHT_UPDATED] }

/-- `AdvancedMemoryManager::recordMemoryAccess`. -/
def recordMemoryAccess (s : OrchState) (content : String) (now : Nat) :
    OrchState :=
  { s with accesses := s.accesses ++ [(content, now)] }

/-- `AdvancedMemoryManager::cleanupExpiredMemories`: `semanticSearch_` is
null, so only the weight collaborator's `cleanupExpiredData` runs; performs
no `running_` check. -/
def cleanupExpiredMemories (s : OrchState) : OrchState :=
  { s with cleanupCount := s.cleanupCount + 1 }

/-- `AdvancedMemoryManager::addMemoriesBatch`: `addMemory` per pair, category
always passed as `Other` (auto-classified). -/
def addMemoriesBatch : OrchState → List (String × MemoryType) → Nat → OrchState
  | s, [], _ => s
  | s, (c, ty) :: rest, now => addMemoriesBatch (addMemory s c ty .Other now) rest now

/-- Snapshot structure `AdvancedMemoryManager::SystemStatistics` (the nested
collaborator statistics are external and omitted). -/
structure SystemStatistics where
  totalMemories : Nat
  totalSearches : Nat
  averageSearchTime : Rat
  cacheHitRate : Nat

/-- `AdvancedMemoryManager::getSystemStatistics`: computed fresh from the
counters; both quotients are guarded against a zero denominator. -/
def getSystemStatistics (s : OrchState) : SystemStatistics :=
  { totalMemories := s.asyncMgr.base.length,
    totalSearches := s.totalSearches,
    averageSearchTime :=
      if 0 < s.totalSearches then (s.totalSearchTime : Rat) / (s.totalSearches : Rat) else 0,
    cacheHitRate :=
      if 0 < s.cacheHits + s.cacheMisses
      then s.cacheHits * 100 / (s.cacheHits + s.cacheMisses) else 0 }

/-- Comparator of `searchMemoriesBatch` (line 173): order by `content`. -/
def contentLE (a b : MemoryItem) : Prop :=
  a.content ≤ b.content

/-- Strict version of the content order. -/
def contentLT (a b : MemoryItem) : Prop :=
  a.content < b.content

instance : DecidableRel contentLE :=
  fun a b => inferInstanceAs (Decidable (a.content ≤ b.content))

instance : IsTotal MemoryItem contentLE :=
  ⟨fun a b => le_total a.content b.content⟩

instance : IsTrans MemoryItem contentLE :=
  ⟨fun _ _ _ h1 h2 => le_trans h1 h2⟩

/-- `std::sort` by content (its postcondition: some content-sorted
rearrangement), realised by insertion sort. -/
def sortByContent (l : List MemoryItem) : List MemoryItem :=
  List.insertionSort contentLE l

/-- Tail loop of `std::unique` with the content comparator: `a` is the last
kept element; drop the next element when its content equals `a`'s, otherwise
keep it and continue from it. -/
def dedupFrom : MemoryItem → List MemoryItem → List MemoryItem
  | _, [] => []
  | a, b :: t => if a.content = b.content then dedupFrom a t else b :: dedupFrom b t

/-- `std::unique` with the content comparator: collapse adjacent
content-duplicates, keeping the first of each run. -/
def dedupAdjacent : List MemoryItem → List MemoryItem
  | [] => []
  | a :: t => a :: dedupFrom a t

/-- The concatenation loop of `searchMemoriesBatch`: `searchMemories` per
query, threading the orchestrator state, results appended in query order. -/
def searchMemoriesBatchRaw :
    OrchState → List String → Nat → Nat → List MemoryItem × OrchState
  | s, [], _, _ => ([], s)
  | s, q :: rest, n, lat =>
    let r1 := searchMemories s q n lat
    let r2 := searchMemoriesBatchRaw r1.2 rest n lat
    (r1.1 ++ r2.1, r2.2)

/-- `AdvancedMemoryManager::searchMemoriesBatch`: per-query search, then
content sort, then adjacent-unique collapse. -/
def searchMemoriesBatch (s : OrchState) (queries : List String)
    (maxResults lat : Nat) : List MemoryItem × OrchState :=
  let raw := searchMemoriesBatchRaw s queries maxResults lat
  (dedupAdjacent (sortByContent raw.1), raw.2)

theorem mem_of_mem_dedupFrom (x : MemoryItem) :
    ∀ (a : MemoryItem) (t : List MemoryItem), x ∈ dedupFrom a t → x ∈ t := by
  intro a t
  induction t generalizing a with
  | nil => simp [dedupFrom]
  | cons b t ih =>
    intro h
    by_cases hc : a.content = b.content
    · rw [dedupFrom, if_pos hc] at h
      exact List.mem_cons_of_mem _ (ih a h)
    · rw [dedupFrom, if_neg hc] at h
      rcases List.mem_cons.mp h with h | h
      · exact h ▸ List.mem_cons_self _ _
      · exact List.mem_cons_of_mem _ (ih b h)

theorem dedupFrom_pairwise_lt :
    ∀ (a : MemoryItem) (t : List MemoryItem),
      List.Pairwise contentLE (a :: t) →
      List.Pairwise contentLT (a :: dedupFrom a t) := by
  intro a t
  induction t generalizing a with
  | nil => intro _; simp [dedupFrom]
  | cons b t ih =>
    intro h
    rcases List.pairwise_cons.mp h with ⟨ha, hbt⟩
    rcases List.pairwise_cons.mp hbt with ⟨hb, ht⟩
    by_cases hc : a.content = b.content
    · rw [dedupFrom, if_pos hc]
      refine ih a (List.pairwise_cons.mpr ⟨fun x hx => ?_, ht⟩)
      exact ha x (List.mem_cons_of_mem _ hx)
    · rw [dedupFrom, if_neg hc]
      have hab : contentLT a b :=
        lt_of_le_of_ne (ha b (List.mem_cons_self _ _)) hc
      refine List.pairwise_cons.mpr ⟨fun x hx => ?_, ih b hbt⟩
      rcases List.mem_cons.mp hx with hx | hx
      · exact hx ▸ hab
      · exact lt_of_lt_of_le hab (hb x (mem_of_mem_dedupFrom x b t hx))

theorem dedupFrom_covers (x : MemoryItem) :
    ∀ (a : MemoryItem) (t : List MemoryItem), x ∈ t →
      ∃ y ∈ a :: dedupFrom a t, y.content = x.content := by
  intro a t
  induction t generalizing a with
  | nil => simp
  | cons b t ih =>
    intro hx
    by_cases hc : a.content = b.content
    · rw [dedupFrom, if_pos hc]
      rcases List.mem_cons.mp hx with hx | hx
      · exact ⟨a, List.mem_cons_self _ _, hx ▸ hc⟩
      · exact ih a hx
    · rw [dedupFrom, if_neg hc]
      rcases List.mem_cons.mp hx with hx | hx
      · exact ⟨b, List.mem_cons_of_mem _ (List.mem_cons_self _ _), hx ▸ rfl⟩
      · rcases ih b hx with ⟨y, hy, hyc⟩
        rcases List.mem_cons.mp hy with hy | hy
        · exact ⟨y, hy ▸ List.mem_cons_of_mem _ (List.mem_cons_self _ _), hyc⟩
        · exact ⟨y, List.mem_cons_of_mem _ (List.mem_cons_of_mem _ hy), hyc⟩

theorem dedupAdjacent_pairwise_lt {l : List MemoryItem}
    (h : List.Pairwise contentLE l) :
    List.Pairwise contentLT (dedupAdjacent l) := by
  cases l with
  | nil => simp [dedupAdjacent]
  | cons a t => exact dedupFrom_pairwise_lt a t h

theorem mem_of_mem_dedupAdjacent {x : MemoryItem} {l : List MemoryItem}
    (h : x ∈ dedupAdjacent l) : x ∈ l := by
  cases l with
  | nil => simp [dedupAdjacent] at h
  | cons a t =>
    rcases List.mem_cons.mp h with h | h
    · exact h ▸ List.mem_cons_self _ _
    · exact List.mem_cons_of_mem _ (mem_of_mem_dedupFrom x a t h)

theorem dedupAdjacent_covers {x : MemoryItem} {l : List MemoryItem}
    (h : x ∈ l) : ∃ y ∈ dedupAdjacent l, y.content = x.content := by
  cases l with
  | nil => cases h
  | cons a t =>
    rcases List.mem_cons.mp h with h | h
    · exact ⟨a, List.mem_cons_self _ _, h ▸ rfl⟩
    · exact dedupFrom_covers x a t h

/-! ## Claim theorems -/

set_option maxRecDepth 8000 in
/-- C1 (code bug): `save()` is documented to persist all pending data, but
`flushPendingWrites` drains at most one batch of `BATCH_SIZE` items; with
101 queued items, one item is still pending after `save()` returns, although
the base store's own save is indeed invoked. -/
theorem c1_save_partial_drain :
    (addSeq 101).pendingWrites.length = 101 ∧
    (saveAsync (addSeq 101)).pendingWrites.length = 1 ∧
    (saveAsync (addSeq 101)).baseSaveCount = (addSeq 101).baseSaveCount + 1 := by
  refine ⟨?_, ?_, ?_⟩ <;> decide

set_option maxRecDepth 8000 in
/-- C2 (code bug): after 101 adds and an orderly shutdown in which the worker
is woken by the stop signal (and so exits without draining), the destructor's
single `flushPendingWrites` persists only the first 100 items; the 101st item
(timestamp 100) was added but reaches no destination. -/
theorem c2_shutdown_drop :
    (⟨"m", .Short, .Other, 100⟩ : MemoryItem) ∈ (addSeq 101).base ∧
    (⟨"m", .Short, .Other, 100⟩ : MemoryItem) ∉
      persistedAll (destructAsync (addSeq 101)) := by
  constructor <;> decide

/-- C3 counterexample: on a freshly constructed (Stopped) manager,
`updateMemoryWeight` still forwards to the weight collaborator and publishes
`WEIGHT_UPDATED`, so a mutating API other than `addMemory` does change
component state while Stopped. -/
theorem c3_counterexample :
    initOrch.running = false ∧
    (updateMemoryWeight initOrch "x" 1).events ≠ initOrch.events ∧
    (updateMemoryWeight initOrch "x" 1).weightUpdates ≠ initOrch.weightUpdates := by
  refine ⟨rfl, ?_, ?_⟩ <;> decide

/-- C3 (amended): only `addMemory` checks the Running state (and
`addMemoriesBatch` inherits the check through it); `updateMemoryWeight` and
`cleanupExpiredMemories` perform their effects regardless of the state. -/
theorem c3_amended :
    (∀ (s : OrchState) (c : String) (ty : MemoryType) (cat : MemoryCategory) (t : Nat),
      s.running = false → addMemory s c ty cat t = s) ∧
    (∀ (s : OrchState) (pairs : List (String × MemoryType)) (t : Nat),
      s.running = false → addMemoriesBatch s pairs t = s) ∧
    (∀ (s : OrchState) (c : String) (w : Rat),
      (updateMemoryWeight s c w).weightUpdates = s.weightUpdates ++ [(c, w)] ∧
      (updateMemoryWeight s c w).events = s.events ++ [.WEIGHT_UPDATED]) ∧
    (∀ s : OrchState, (cleanupExpiredMemories s).cleanupCount = s.cleanupCount + 1) := by
  have hadd : ∀ (s : OrchState) (c : String) (ty : MemoryType) (cat : MemoryCategory)
      (t : Nat), s.running = false → addMemory s c ty cat t = s := by
    intro s c ty cat t h
    simp [addMemory, h]
  refine ⟨hadd, ?_, fun s c w => ⟨rfl, rfl⟩, fun s => rfl⟩
  intro s pairs t h
  induction pairs generalizing s with
  | nil => rfl
  | cons p rest ih =>
    rw [addMemoriesBatch, hadd s p.1 p.2 .Other t h]
    exact ih s h

/-- C3 witness: `addMemory` on the Stopped initial state is a no-op. -/
theorem c3_witness : addMemory initOrch "x" .Short .Other 0 = initOrch :=
  c3_amended.1 initOrch "x" .Short .Other 0 rfl

/-- A running manager whose store holds one item whose content matches the
query "apple". -/
def c4Async : AsyncState :=
  { initAsync with base := [⟨"apple pie", .Short, .Other, 0⟩] }

/-- Running orchestrator used for the C4 counterexample. -/
def c4State : OrchState :=
  { initOrch with running := true, asyncMgr := c4Async }

/-- C4 counterexample: two `searchMemories "apple"` calls — the first misses
and caches its result, the second hits the cache and returns before the
counter update — leave `totalSearches` at 1, not at the number of calls 2. -/
theorem c4_counterexample :
    (searchMemories (searchMemories c4State "apple" 10 1).2 "apple" 10 1).2.totalSearches = 1 ∧
    (searchMemories (searchMemories c4State "apple" 10 1).2 "apple" 10 1).2.totalSearches ≠ 2 := by
  constructor <;> decide

/-- C4 (amended): a cache hit returns the cached item immediately, bumping
only the hit counter and leaving `totalSearches` and the latency total
untouched; only a cache miss increments `totalSearches` by one and adds the
measured latency. -/
theorem c4_amended (s : OrchState) (q : String) (n lat : Nat) :
    (∀ item : MemoryItem, cacheGet s.cache q = some item →
      (searchMemories s q n lat).1 = [item] ∧
      (searchMemories s q n lat).2.totalSearches = s.totalSearches ∧
      (searchMemories s q n lat).2.totalSearchTime = s.totalSearchTime ∧
      (searchMemories s q n lat).2.cacheHits = s.cacheHits + 1) ∧
    (cacheGet s.cache q = none →
      (searchMemories s q n lat).2.totalSearches = s.totalSearches + 1 ∧
      (searchMemories s q n lat).2.totalSearchTime = s.totalSearchTime + lat ∧
      (searchMemories s q n lat).2.cacheMisses = s.cacheMisses + 1) := by
  constructor
  · intro item h
    simp [searchMemories, h]
  · intro h
    unfold searchMemories
    rw [h]
    cases hr : getRelatedMemories s.asyncMgr q n <;> simp [hr, cachePut]

/-- C4 witness: a miss on the empty cache increments the search counter. -/
theorem c4_witness :
    (searchMemories initOrch "q" 10 3).2.totalSearches = initOrch.totalSearches + 1 :=
  ((c4_amended initOrch "q" 10 3).2 rfl).1

/-- C5 counterexample: no fixed bound covers the pending queue — for any
proposed bound `B`, the reachable state after `B + 1` adds (the worker not
yet scheduled; `addMemory` itself only signals at the threshold) holds
`B + 1` pending items. -/
theorem c5_counterexample :
    ¬ ∃ B : Nat, ∀ n : Nat, (addSeq n).pendingWrites.length ≤ B := by
  rintro ⟨B, h⟩
  have hB := h (B + 1)
  rw [addSeq_pending_length] at hB
  omega

theorem workerDrain_pending (s : AsyncState) :
    (workerDrain s).pendingWrites = s.pendingWrites.drop BATCH_SIZE := by
  unfold workerDrain
  by_cases hb : (getPendingBatch s).isEmpty
  · simp [hb, saveBatch]
  · simp [hb, saveBatch]

/-- C5 (amended): the pending queue itself is unbounded — `n` adds leave `n`
items queued; only each drained batch is bounded by `BATCH_SIZE`, a worker
pass removing exactly `BATCH_SIZE` items (or everything, if fewer). -/
theorem c5_amended :
    (∀ n : Nat, (addSeq n).pendingWrites.length = n) ∧
    (∀ s : AsyncState, (getPendingBatch s).length ≤ BATCH_SIZE ∧
      (workerDrain s).pendingWrites.length = s.pendingWrites.length - BATCH_SIZE) := by
  refine ⟨addSeq_pending_length, fun s => ⟨?_, ?_⟩⟩
  · simp [getPendingBatch]
  · rw [workerDrain_pending, List.length_drop]

/-- Orchestrator whose store holds a single item, for the C6 counterexample. -/
def c6Async : AsyncState :=
  { initAsync with base := [⟨"a", .Short, .Other, 0⟩] }

/-- State used by the C6 counterexample. -/
def c6State : OrchState :=
  { initOrch with asyncMgr := c6Async }

/-- C6 counterexample: with one stored memory, `getRecentMemories 0` still
returns that memory — the result is not bounded by the `count` argument. -/
theorem c6_counterexample : ¬ ((getRecentMemories c6State 0).length ≤ 0) := by
  decide

/-- C6 (amended): `getRecentMemories` ignores its `count` argument and
returns the base store's whole recency listing (empty on an empty store);
`getTopMemories n` does return at most `n` items and is empty on an empty
store. -/
theorem c6_amended :
    (∀ (s : OrchState) (n : Nat),
      getRecentMemories s n = baseGetRecentMemories s.asyncMgr) ∧
    (∀ (s : OrchState) (n : Nat), s.asyncMgr.base = [] → getRecentMemories s n = []) ∧
    (∀ (s : OrchState) (n : Nat), (getTopMemories s n).length ≤ n) ∧
    (∀ (s : OrchState) (n : Nat), s.asyncMgr.base = [] → getTopMemories s n = []) := by
  refine ⟨fun s n => rfl, ?_, ?_, ?_⟩
  · intro s n h
    simp [getRecentMemories, baseGetRecentMemories, h]
  · intro s n
    simp [getTopMemories, baseGetTopMemories]
  · intro s n h
    simp [getTopMemories, baseGetTopMemories, h]

/-- C6 witness: on the empty store the recency listing is empty. -/
theorem c6_witness : getRecentMemories initOrch 7 = [] :=
  c6_amended.2.1 initOrch 7 rfl

/-- C7: `searchMemoriesBatch` returns the per-query concatenation
deduplicated by content — the result is sorted by content, no two returned
items share a content, every returned item comes from the concatenation, and
every concatenated item is represented in the result by an item of the same
content. -/
theorem c7_searchMemoriesBatch_dedup (s : OrchState) (queries : List String)
    (n lat : Nat) :
    List.Sorted contentLE (searchMemoriesBatch s queries n lat).1 ∧
    List.Pairwise (fun a b : MemoryItem => a.content ≠ b.content)
      (searchMemoriesBatch s queries n lat).1 ∧
    (∀ x ∈ (searchMemoriesBatch s queries n lat).1,
      x ∈ (searchMemoriesBatchRaw s queries n lat).1) ∧
    (∀ x ∈ (searchMemoriesBatchRaw s queries n lat).1,
      ∃ y ∈ (searchMemoriesBatch s queries n lat).1, y.content = x.content) := by
  have hs : List.Pairwise contentLE
      (sortByContent (searchMemoriesBatchRaw s queries n lat).1) :=
    List.sorted_insertionSort contentLE _
  have hperm :=
    List.perm_insertionSort contentLE (searchMemoriesBatchRaw s queries n lat).1
  have hlt := dedupAdjacent_pairwise_lt hs
  refine ⟨?_, ?_, ?_, ?_⟩
  · exact hlt.imp (fun h => le_of_lt h)
  · exact hlt.imp (fun h => ne_of_lt h)
  · intro x hx
    exact hperm.mem_iff.mp (mem_of_mem_dedupAdjacent hx)
  · intro x hx
    exact dedupAdjacent_covers (hperm.mem_iff.mpr hx)

/-- C7 witness: the sortedness conjunct at the spec's own example input. -/
theorem c7_witness :
    List.Sorted contentLE (searchMemoriesBatch initOrch ["a", "a", "b"] 5 0).1 :=
  (c7_searchMemoriesBatch_dedup initOrch ["a", "a", "b"] 5 0).1

/-- C8: the classifier is a pure total function that lower-cases its input
and tests the categories in the fixed order Work, Family, Friendship,
Happiness, the first keyword match winning and no match yielding Other; in
particular "公司项目进展" classifies as Work. -/
theorem c8_classifier_first_match :
    classifyMemory "公司项目进展" = .Work ∧
    ∀ c : String,
      (matchesWork (c.toList.map asciiToLower) = true → classifyMemory c = .Work) ∧
      (matchesWork (c.toList.map asciiToLower) = false →
        matchesFamily (c.toList.map asciiToLower) = true →
        classifyMemory c = .Family) ∧
      (matchesWork (c.toList.map asciiToLower) = false →
        matchesFamily (c.toList.map asciiToLower) = false →
        matchesFriendship (c.toList.map asciiToLower) = true →
        classifyMemory c = .Friendship) ∧
      (matchesWork (c.toList.map asciiToLower) = false →
        matchesFamily (c.toList.map asciiToLower) = false →
        matchesFriendship (c.toList.map asciiToLower) = false →
        matchesHappiness (c.toList.map asciiToLower) = true →
        classifyMemory c = .Happiness) ∧
      (matchesWork (c.toList.map asciiToLower) = false →
        matchesFamily (c.toList.map asciiToLower) = false →
        matchesFriendship (c.toList.map asciiToLower) = false →
        matchesHappiness (c.toList.map asciiToLower) = false →
        classifyMemory c = .Other) := by
  refine ⟨by decide, fun c => ⟨?_, ?_, ?_, ?_, ?_⟩⟩
  · intro h1
    simp only [String.toList] at h1
    simp [classifyMemory, h1]
  · intro h1 h2
    simp only [String.toList] at h1 h2
    simp [classifyMemory, h1, h2]
  · intro h1 h2 h3
    simp only [String.toList] at h1 h2 h3
    simp [classifyMemory, h1, h2, h3]
  · intro h1 h2 h3 h4
    simp only [String.toList] at h1 h2 h3 h4
    simp [classifyMemory, h1, h2, h3, h4]
  · intro h1 h2 h3 h4
    simp only [String.toList] at h1 h2 h3 h4
    simp [classifyMemory, h1, h2, h3, h4]

/-- C8 witness: "父母" matches no Work keyword and a Family keyword, so it
classifies as Family. -/
theorem c8_witness : classifyMemory "父母" = .Family :=
  (c8_classifier_first_match.2 "父母").2.1 (by decide) (by decide)

/-- C9: the statistics snapshot computes the cache hit rate as
`hits * 100 / (hits + misses)` in truncating `Nat` division — 0 with no
accesses and always at most 100 — and the average search time as
`totalLatency / totalSearches`, 0 when no searches have occurred; neither
quotient divides by zero. -/
theorem c9_statistics (s : OrchState) :
    (getSystemStatistics s).cacheHitRate =
      (if 0 < s.cacheHits + s.cacheMisses
       then s.cacheHits * 100 / (s.cacheHits + s.cacheMisses) else 0) ∧
    (getSystemStatistics s).cacheHitRate ≤ 100 ∧
    (s.cacheHits + s.cacheMisses = 0 → (getSystemStatistics s).cacheHitRate = 0) ∧
    (getSystemStatistics s).averageSearchTime =
      (if 0 < s.totalSearches
       then (s.totalSearchTime : Rat) / (s.totalSearches : Rat) else 0) ∧
    (s.totalSearches = 0 → (getSystemStatistics s).averageSearchTime = 0) := by
  refine ⟨rfl, ?_, ?_, rfl, ?_⟩
  · show (if 0 < s.cacheHits + s.cacheMisses
       then s.cacheHits * 100 / (s.cacheHits + s.cacheMisses) else 0) ≤ 100
    by_cases h : 0 < s.cacheHits + s.cacheMisses
    · rw [if_pos h]
      calc s.cacheHits * 100 / (s.cacheHits + s.cacheMisses)
          ≤ (s.cacheHits + s.cacheMisses) * 100 / (s.cacheHits + s.cacheMisses) :=
            Nat.div_le_div_right (Nat.mul_le_mul_right 100 (Nat.le_add_right _ _))
        _ = 100 := Nat.mul_div_cancel_left 100 h
    · rw [if_neg h]
      exact Nat.zero_le 100
  · intro h
    show (if 0 < s.cacheHits + s.cacheMisses
       then s.cacheHits * 100 / (s.cacheHits + s.cacheMisses) else 0) = 0
    rw [h]
    simp
  · intro h
    show (if 0 < s.totalSearches
       then (s.totalSearchTime : Rat) / (s.totalSearches : Rat) else 0) = 0
    rw [h]
    simp

/-- C9 witness: the fresh manager reports a zero hit rate. -/
theorem c9_witness : (getSystemStatistics initOrch).cacheHitRate = 0 :=
  (c9_statistics initOrch).2.2.1 rfl

/-- C10: when the content carries a classifier keyword, `addMemory` with the
explicit `Other` category behaves exactly like `addMemory` with the
classifier's category: the stored and enqueued item carries the classifier's
(non-Other) category, so a caller cannot force `Other` through the add
path. -/
theorem c10_no_forced_other (s : OrchState) (c : String) (ty : MemoryType)
    (t : Nat) (h : classifyMemory c ≠ .Other) :
    addMemory s c ty .Other t = addMemory s c ty (classifyMemory c) t ∧
    (s.running = true →
      (addMemory s c ty .Other t).asyncMgr.base =
        s.asyncMgr.base ++ [⟨c, ty, classifyMemory c, t⟩] ∧
      (addMemory s c ty .Other t).asyncMgr.pendingWrites =
        s.asyncMgr.pendingWrites ++ [⟨c, ty, classifyMemory c, t⟩]) := by
  constructor
  · simp [addMemory, h]
  · intro hr
    simp [addMemory, hr, addMemoryAsync, baseAddMemory]

/-- C10 witness: for "公司项目进展" (a Work keyword), passing `Other`
explicitly is indistinguishable from passing the classifier's category. -/
theorem c10_witness :
    addMemory initOrch "公司项目进展" .Short .Other 0 =
      addMemory initOrch "公司项目进展" .Short (classifyMemory "公司项目进展") 0 :=
  (c10_no_forced_other initOrch "公司项目进展" .Short 0 (by decide)).1

end Sqdlh
